import Mathlib

/-!
# Verification of the chat-gateway message core

A shallow embedding, in Lean 4, of the core of the `chat-gateway` service:

* the AES-256-CTR message cipher (`internal/security/encryption/aes_ctr.go`),
* the message-encryption wrapper and persistent key manager
  (`internal/security/encryption` and `internal/security/keymanager`),
* the Mongo-backed room and message stores
  (`internal/storage/database/chatroom`),
* the gRPC room/message server (`internal/grpc`), and
* the HTTP adapter's input validators (`internal/platform/middleware`).

Conventions of the embedding:

* Go byte slices and Go strings that are manipulated byte-wise (ciphertext,
  envelopes, user ids fed to the validators) are `List Nat`, one element per
  byte, each `< 256`.
* Message *content* handed to `SendMessage` is represented by its sequence of
  Unicode scalar values (`List Nat`, each a valid scalar); the Go conversion
  `[]byte(s)` is `utf8Encode`, Go `len(s)` is `(utf8Encode s).length`, and
  `[]rune(s)` is the scalar list itself.  This is exact for the valid-UTF-8
  strings the claims quantify over.
* The AES block cipher and Go's `cipher.NewCTR` keystream are abstracted by a
  parameter `ks : KS`: the CTR keystream is a byte stream fully determined by
  (key, IV), which is all the surrounding code relies on.  Random IVs and
  freshly generated keys are passed as explicit parameters.
* Mongo queries are modelled set-theoretically over in-memory lists: filters
  become `List.filter`, `sort created_at: -1` becomes `insertionSort` with the
  corresponding relation, `limit` becomes `take`.
* Wall-clock time is a logical counter; `context.Context` and transport errors
  are dropped (operations are modelled on their success path, except where a
  function's own error checks are part of the modelled behaviour).
-/

/-! ## Byte strings -/

/-- A Go byte slice / byte-indexed string: one `Nat` per byte. -/
abbrev Str := List Nat

/-! ## UTF-8 encoding (Go's `[]byte(string)` on a sequence of runes) -/

/-- UTF-8 encoding of a single Unicode scalar value, as in RFC 3629
(and Go's `utf8.EncodeRune`). -/
def utf8EncodeChar (u : Nat) : List Nat :=
  if u < 0x80 then [u]
  else if u < 0x800 then [0xC0 + u / 64, 0x80 + u % 64]
  else if u < 0x10000 then [0xE0 + u / 4096, 0x80 + (u / 64) % 64, 0x80 + u % 64]
  else [0xF0 + u / 262144, 0x80 + (u / 4096) % 64, 0x80 + (u / 64) % 64, 0x80 + u % 64]

/-- Go's `[]byte(s)` where `s` is given by its scalar values. -/
def utf8Encode (l : List Nat) : Str := l.flatMap utf8EncodeChar

/-- One step of Go's `utf8.ValidString` loop: consume one well-formed
UTF-8-encoded rune from the front (Go's acceptance ranges: no overlongs,
no surrogates, max U+10FFFF), returning the remainder, or `none` at the end
of input or on an ill-formed sequence. -/
def utf8Step : Str → Option Str
  | [] => none
  | b :: rest =>
    if b < 0x80 then some rest
    else if 0xC2 ≤ b ∧ b ≤ 0xDF then
      match rest with
      | b1 :: rest1 => if 0x80 ≤ b1 ∧ b1 ≤ 0xBF then some rest1 else none
      | [] => none
    else if 0xE0 ≤ b ∧ b ≤ 0xEF then
      match rest with
      | b1 :: b2 :: rest2 =>
        if (0x80 ≤ b1 ∧ b1 ≤ 0xBF) ∧ ¬(b = 0xE0 ∧ b1 < 0xA0) ∧ ¬(b = 0xED ∧ 0xA0 ≤ b1) ∧
            (0x80 ≤ b2 ∧ b2 ≤ 0xBF) then some rest2
        else none
      | _ => none
    else if 0xF0 ≤ b ∧ b ≤ 0xF4 then
      match rest with
      | b1 :: b2 :: b3 :: rest3 =>
        if (0x80 ≤ b1 ∧ b1 ≤ 0xBF) ∧ ¬(b = 0xF0 ∧ b1 < 0x90) ∧ ¬(b = 0xF4 ∧ 0x90 ≤ b1) ∧
            (0x80 ≤ b2 ∧ b2 ≤ 0xBF) ∧ (0x80 ≤ b3 ∧ b3 ≤ 0xBF) then some rest3
        else none
      | _ => none
    else none

/-- The `ValidString` loop with a step-count bound.  Each `utf8Step`
consumes at least one byte, so a budget of `l.length` steps never runs out
on `l`; the bound only makes the recursion structural. -/
def utf8ValidFuel : Nat → Str → Bool
  | _, [] => true
  | 0, _ :: _ => false
  | fuel + 1, b :: rest =>
    match utf8Step (b :: rest) with
    | some r => utf8ValidFuel fuel r
    | none => false

/-- `utf8.ValidString` (Go `unicode/utf8`). -/
def utf8Valid (l : Str) : Bool := utf8ValidFuel l.length l

/-! ## Base64 (Go `encoding/base64` `StdEncoding`) -/

/-- The standard base64 alphabet, as the ASCII code of the character for a
sextet value. -/
def b64Char (s : Nat) : Nat :=
  if s < 26 then 65 + s
  else if s < 52 then 97 + (s - 26)
  else if s < 62 then 48 + (s - 52)
  else if s = 62 then 43
  else 47

/-- Inverse alphabet lookup; `none` for a byte outside the alphabet. -/
def b64CharInv (c : Nat) : Option Nat :=
  if 65 ≤ c ∧ c ≤ 90 then some (c - 65)
  else if 97 ≤ c ∧ c ≤ 122 then some (c - 97 + 26)
  else if 48 ≤ c ∧ c ≤ 57 then some (c - 48 + 52)
  else if c = 43 then some 62
  else if c = 47 then some 63
  else none

/-- `base64.StdEncoding.EncodeToString`: three input bytes become four
alphabet characters, with `=` (ASCII 61) padding for a final partial group. -/
def b64Encode : Str → Str
  | [] => []
  | [b0] => [b64Char (b0 / 4), b64Char (b0 % 4 * 16), 61, 61]
  | [b0, b1] => [b64Char (b0 / 4), b64Char (b0 % 4 * 16 + b1 / 16), b64Char (b1 % 16 * 4), 61]
  | b0 :: b1 :: b2 :: rest =>
    b64Char (b0 / 4) :: b64Char (b0 % 4 * 16 + b1 / 16) ::
      b64Char (b1 % 16 * 4 + b2 / 64) :: b64Char (b2 % 64) :: b64Encode rest

/-- `base64.StdEncoding.DecodeString`: `none` on characters outside the
alphabet, on lengths that are not a multiple of four, and on padding that is
not final. -/
def b64Decode : Str → Option Str
  | [] => some []
  | c0 :: c1 :: c2 :: c3 :: rest =>
    match b64CharInv c0, b64CharInv c1 with
    | some s0, some s1 =>
      if c3 = 61 then
        if rest ≠ [] then none
        else if c2 = 61 then some [s0 * 4 + s1 / 16]
        else
          match b64CharInv c2 with
          | some s2 => some [s0 * 4 + s1 / 16, s1 % 16 * 16 + s2 / 4]
          | none => none
      else
        match b64CharInv c2, b64CharInv c3 with
        | some s2, some s3 =>
          (b64Decode rest).map fun bs =>
            (s0 * 4 + s1 / 16) :: (s1 % 16 * 16 + s2 / 4) :: (s2 % 4 * 64 + s3) :: bs
        | _, _ => none
    | _, _ => none
  | _ => none


theorem b64CharInv_b64Char : ∀ s, s < 64 → b64CharInv (b64Char s) = some s := by decide

theorem b64Char_ne_pad : ∀ s, s < 64 → b64Char s ≠ 61 := by decide

theorem b64Char_lt_128 : ∀ s, s < 64 → b64Char s < 128 := by decide

/-- Decoding inverts encoding on byte lists. -/
theorem b64Decode_b64Encode : ∀ bs : Str, (∀ b ∈ bs, b < 256) →
    b64Decode (b64Encode bs) = some bs
  | [], _ => by simp [b64Encode, b64Decode]
  | [b0], h => by
    have hb0 : b0 < 256 := h b0 (by simp)
    have h1 : b0 / 4 < 64 := by omega
    have h2 : b0 % 4 * 16 < 64 := by omega
    simp only [b64Encode, b64Decode, b64CharInv_b64Char _ h1, b64CharInv_b64Char _ h2,
      ne_eq, not_true_eq_false, if_true, if_false, ite_false, ite_true, not_false_iff]
    simp only [Option.some.injEq, List.cons.injEq, and_true]
    omega
  | [b0, b1], h => by
    have hb0 : b0 < 256 := h b0 (by simp)
    have hb1 : b1 < 256 := h b1 (by simp)
    have h1 : b0 / 4 < 64 := by omega
    have h2 : b0 % 4 * 16 + b1 / 16 < 64 := by omega
    have h3 : b1 % 16 * 4 < 64 := by omega
    simp only [b64Encode, b64Decode, b64CharInv_b64Char _ h1, b64CharInv_b64Char _ h2,
      b64CharInv_b64Char _ h3, b64Char_ne_pad _ h3, ne_eq, not_true_eq_false, if_true,
      if_false, ite_false, ite_true, not_false_iff]
    simp only [Option.some.injEq, List.cons.injEq, and_true]
    constructor
    · omega
    · omega
  | b0 :: b1 :: b2 :: rest, h => by
    have hb0 : b0 < 256 := h b0 (by simp)
    have hb1 : b1 < 256 := h b1 (by simp)
    have hb2 : b2 < 256 := h b2 (by simp)
    have h1 : b0 / 4 < 64 := by omega
    have h2 : b0 % 4 * 16 + b1 / 16 < 64 := by omega
    have h3 : b1 % 16 * 4 + b2 / 64 < 64 := by omega
    have h4 : b2 % 64 < 64 := by omega
    have ih := b64Decode_b64Encode rest (fun b hb => h b (by simp [hb]))
    simp only [b64Encode, b64Decode, b64CharInv_b64Char _ h1, b64CharInv_b64Char _ h2,
      b64CharInv_b64Char _ h3, b64CharInv_b64Char _ h4, b64Char_ne_pad _ h4, if_false,
      ite_false, ite_true]
    rw [ih]
    simp only [Option.map_some', Option.some.injEq, List.cons.injEq, and_true]
    refine ⟨by omega, by omega, by omega⟩

/-! ## XOR keystream (Go `crypto/cipher` `ctr.XORKeyStream`) -/

/-- A CTR keystream: byte `i` of the stream determined by (key, IV).  This
abstracts `cipher.NewCTR(aes.NewCipher(key), iv)`; everything the repository
relies on is that the stream depends only on the key and the IV. -/
abbrev KS := Str → Str → Nat → Nat

/-- `stream.XORKeyStream(dst, src)` starting at stream offset `i`. -/
def xorKS (f : Nat → Nat) : Nat → Str → Str
  | _, [] => []
  | i, b :: bs => (b ^^^ f i) :: xorKS f (i + 1) bs

theorem xorKS_xorKS (f : Nat → Nat) : ∀ i bs, xorKS f i (xorKS f i bs) = bs := by
  intro i bs
  induction bs generalizing i with
  | nil => rfl
  | cons b bs ih => simp [xorKS, Nat.xor_cancel_right, ih]

theorem xorKS_length (f : Nat → Nat) : ∀ i bs, (xorKS f i bs).length = bs.length := by
  intro i bs
  induction bs generalizing i with
  | nil => rfl
  | cons b bs ih => simp [xorKS, ih]

theorem xorKS_lt_256 (f : Nat → Nat) (hf : ∀ i, f i < 256) :
    ∀ i bs, (∀ b ∈ bs, b < 256) → ∀ b ∈ xorKS f i bs, b < 256 := by
  intro i bs
  induction bs generalizing i with
  | nil => simp [xorKS]
  | cons x bs ih =>
    intro h b hb
    simp only [xorKS, List.mem_cons] at hb
    rcases hb with hb | hb
    · subst hb
      have h1 : x < 2 ^ 8 := h x (by simp)
      have h2 : f i < 2 ^ 8 := hf i
      exact Nat.xor_lt_two_pow h1 h2
    · exact ih (i + 1) (fun y hy => h y (by simp [hy])) b hb

/-! ## The AES-256-CTR message cipher (`aes_ctr.go`) -/

/-- The ASCII bytes of the envelope tag `"aes256ctr:"`. -/
def aesTag : Str := [97, 101, 115, 50, 53, 54, 99, 116, 114, 58]

/-- `AESCTREncryption.Encrypt` composed with the `NewAESCTREncryption`
key-length check.  `iv` stands for the 16 random bytes read from
`rand.Reader`; `ks key iv` is the CTR keystream for this key and IV.
Returns `none` exactly where the Go code returns an error: an empty
plaintext, or a key whose length is not 32. -/
def aesCTREncrypt (ks : KS) (key iv plaintext : Str) : Option Str :=
  if key.length ≠ 32 then none
  else if plaintext = [] then none
  else some (aesTag ++ b64Encode (iv ++ xorKS (ks key iv) 0 plaintext))

/-- `AESCTREncryption.Decrypt` composed with the `NewAESCTREncryption`
key-length check.  Returns `none` where the Go code errors: empty input,
missing `"aes256ctr:"` tag, base64 decode failure, or fewer than 16 bytes
of decoded data.  The first 16 decoded bytes are the IV, the rest the
ciphertext. -/
def aesCTRDecrypt (ks : KS) (key envelope : Str) : Option Str :=
  if key.length ≠ 32 then none
  else if envelope = [] then none
  else if envelope.take 10 ≠ aesTag then none
  else
    match b64Decode (envelope.drop 10) with
    | none => none
    | some data =>
      if data.length < 16 then none
      else some (xorKS (ks key (data.take 16)) 0 (data.drop 16))

/-- Core round-trip of the envelope cipher, with the envelope exposed. -/
theorem aesCTRDecrypt_aesCTREncrypt (ks : KS) (key iv p : Str)
    (hkey : key.length = 32) (hpb : ∀ b ∈ p, b < 256)
    (hiv : iv.length = 16) (hivb : ∀ b ∈ iv, b < 256)
    (hks : ∀ i, ks key iv i < 256) :
    aesCTRDecrypt ks key (aesTag ++ b64Encode (iv ++ xorKS (ks key iv) 0 p)) = some p := by
  have hct : ∀ b ∈ xorKS (ks key iv) 0 p, b < 256 := xorKS_lt_256 _ hks 0 p hpb
  have hdata : ∀ b ∈ iv ++ xorKS (ks key iv) 0 p, b < 256 := by
    intro b hb
    rcases List.mem_append.mp hb with hb | hb
    · exact hivb b hb
    · exact hct b hb
  have htag : aesTag.length = 10 := by decide
  have htake : (aesTag ++ b64Encode (iv ++ xorKS (ks key iv) 0 p)).take 10 = aesTag := by
    rw [← htag, List.take_left]
  have hdrop : (aesTag ++ b64Encode (iv ++ xorKS (ks key iv) 0 p)).drop 10 =
      b64Encode (iv ++ xorKS (ks key iv) 0 p) := by
    rw [← htag, List.drop_left]
  have hne : aesTag ++ b64Encode (iv ++ xorKS (ks key iv) 0 p) ≠ [] := by
    simp [aesTag]
  rw [aesCTRDecrypt, if_neg (by omega), if_neg (by simpa using hne), if_neg (by rw [htake]; simp),
    hdrop, b64Decode_b64Encode _ hdata]
  have hlen : (iv ++ xorKS (ks key iv) 0 p).length = 16 + p.length := by
    simp [xorKS_length, hiv]
  show (if (iv ++ xorKS (ks key iv) 0 p).length < 16 then none
      else some (xorKS (ks key ((iv ++ xorKS (ks key iv) 0 p).take 16)) 0
        ((iv ++ xorKS (ks key iv) 0 p).drop 16))) = some p
  rw [if_neg (by omega)]
  have htake16 : (iv ++ xorKS (ks key iv) 0 p).take 16 = iv := by
    rw [← hiv, List.take_left]
  have hdrop16 : (iv ++ xorKS (ks key iv) 0 p).drop 16 = xorKS (ks key iv) 0 p := by
    rw [← hiv, List.drop_left]
  rw [htake16, hdrop16, xorKS_xorKS]

/-- C7.
Cipher round-trip: for every non-empty plaintext (a byte string, as produced
from a valid UTF-8 Go string within the message length bounds) and every
32-byte DEK, `AESCTREncryption.Decrypt` applied to the result of
`AESCTREncryption.Encrypt` under the same DEK returns the original
plaintext, for any 16-byte random IV and any CTR keystream. -/
theorem aesCTR_roundtrip (ks : KS) (key iv p : Str)
    (hkey : key.length = 32) (hp : p ≠ []) (hpb : ∀ b ∈ p, b < 256)
    (hiv : iv.length = 16) (hivb : ∀ b ∈ iv, b < 256)
    (hks : ∀ i, ks key iv i < 256) :
    (aesCTREncrypt ks key iv p).bind (aesCTRDecrypt ks key) = some p := by
  rw [aesCTREncrypt, if_neg (by omega), if_neg hp, Option.some_bind]
  exact aesCTRDecrypt_aesCTREncrypt ks key iv p hkey hpb hiv hivb hks

/-- A concrete keystream used by the witnesses: byte `i` is
`(key₀ + iv₀ + i) mod 256`. -/
def ksW : KS := fun key iv i => (key.headD 0 + iv.headD 0 + i) % 256

/-- Witness for C7 at a concrete key, IV and plaintext. -/
theorem aesCTR_roundtrip_witness :
    (aesCTREncrypt ksW (List.replicate 32 7) (List.replicate 16 3) [104, 105]).bind
      (aesCTRDecrypt ksW (List.replicate 32 7)) = some [104, 105] :=
  aesCTR_roundtrip ksW (List.replicate 32 7) (List.replicate 16 3) [104, 105]
    (by decide) (by decide) (by decide) (by decide) (by decide)
    (fun i => Nat.mod_lt _ (by decide))

/-- Length of a base64 encoding: four output characters per three input
bytes, rounded up. -/
theorem b64Encode_length : ∀ bs : Str, (b64Encode bs).length = 4 * ((bs.length + 2) / 3)
  | [] => by simp [b64Encode]
  | [b0] => by simp [b64Encode]
  | [b0, b1] => by simp [b64Encode]
  | b0 :: b1 :: b2 :: rest => by
    simp only [b64Encode, List.length_cons, b64Encode_length rest]
    omega

/-! ## Key manager with persistence (`keymanager`, `part_020`)

The claims are all per-room; `KMState` is the slice of
`KeyManagerWithPersistence` for one room after its key exists: the cached
active key `km.keys[roomID]` (value and version) and the archived ring
`km.oldKeys[roomID]`.  Freshly generated random keys are explicit
parameters. -/

structure KMState where
  activeKey : Str
  version : Nat
  oldKeys : List (Str × Nat)
  keepOldKeys : Nat

/-- `GetOrCreateRoomKey` on the cache-hit path: returns the active key. -/
def getOrCreateRoomKey (km : KMState) : Str := km.activeKey

/-- `cleanupOldKeys`: keep only the newest `keepOldKeys` archived keys. -/
def cleanupOldKeys (keep : Nat) (l : List (Str × Nat)) : List (Str × Nat) :=
  if l.length ≤ keep then l else l.drop (l.length - keep)

/-- `rotateKey`: install a freshly generated key at `version + 1` and move
the previous active key to the archived ring.  (`ForceRotateKey` is
`rotateKey` after an existence check that always holds in this state.) -/
def rotateKey (km : KMState) (newKeyValue : Str) : KMState :=
  { activeKey := newKeyValue, version := km.version + 1,
    oldKeys := cleanupOldKeys km.keepOldKeys (km.oldKeys ++ [(km.activeKey, km.version)]),
    keepOldKeys := km.keepOldKeys }

/-! ## Message encryption wrapper (`MessageEncryption`, `part_018`) -/

/-- The ASCII bytes of `"plaintext:"`. -/
def plainTag : Str := [112, 108, 97, 105, 110, 116, 101, 120, 116, 58]

/-- The ASCII bytes of `"encrypted:"` (the old fake-encryption format). -/
def encTagOld : Str := [101, 110, 99, 114, 121, 112, 116, 101, 100, 58]

/-- `MessageEncryption.EncryptMessage`: with encryption disabled, store
`"plaintext:" + content`; otherwise encrypt under the room's active DEK. -/
def encryptMessage (ks : KS) (enabled : Bool) (km : KMState) (iv content : Str) : Option Str :=
  if !enabled then some (plainTag ++ content)
  else aesCTREncrypt ks (getOrCreateRoomKey km) iv content

/-- `MessageEncryption.DecryptMessage`.  Note that on the encrypting path it
always decrypts with `GetOrCreateRoomKey`, i.e. with the *current active*
DEK; there is no version lookup. -/
def decryptMessage (ks : KS) (enabled : Bool) (km : KMState) (c : Str) : Option Str :=
  if !enabled then
    if c.length > 10 ∧ c.take 10 = plainTag then some (c.drop 10) else some c
  else if c.length > 10 ∧ c.take 10 = plainTag then some (c.drop 10)
  else if c.length > 10 ∧ c.take 10 = encTagOld then none
  else aesCTRDecrypt ks (getOrCreateRoomKey km) c

/-- `MessageEncryption.IsEncrypted`: content carries the `"aes256ctr:"` tag. -/
def isEncrypted (c : Str) : Bool :=
  if c.length < 10 then false else decide (c.take 10 = aesTag)

/-- With encryption enabled and an unrotated key manager, `DecryptMessage`
inverts `EncryptMessage`. -/
theorem decryptMessage_encryptMessage (ks : KS) (km : KMState) (iv p : Str)
    (hkey : km.activeKey.length = 32) (hp : p ≠ []) (hpb : ∀ b ∈ p, b < 256)
    (hiv : iv.length = 16) (hivb : ∀ b ∈ iv, b < 256)
    (hks : ∀ i, ks km.activeKey iv i < 256) :
    (encryptMessage ks true km iv p).bind (decryptMessage ks true km) = some p := by
  have hk32 : (getOrCreateRoomKey km).length = 32 := hkey
  have henc : encryptMessage ks true km iv p =
      some (aesTag ++ b64Encode (iv ++ xorKS (ks (getOrCreateRoomKey km) iv) 0 p)) := by
    simp [encryptMessage, aesCTREncrypt, hk32, hp]
  rw [henc, Option.some_bind]
  have htake : (aesTag ++ b64Encode (iv ++ xorKS (ks (getOrCreateRoomKey km) iv) 0 p)).take 10 =
      aesTag := by
    rw [show (10 : Nat) = aesTag.length from by decide, List.take_left]
  have hc1 : ¬((aesTag ++ b64Encode (iv ++ xorKS (ks (getOrCreateRoomKey km) iv) 0 p)).length > 10 ∧
      (aesTag ++ b64Encode (iv ++ xorKS (ks (getOrCreateRoomKey km) iv) 0 p)).take 10 =
        plainTag) := by
    rw [htake]
    rintro ⟨-, h⟩
    exact absurd h (by decide)
  have hc2 : ¬((aesTag ++ b64Encode (iv ++ xorKS (ks (getOrCreateRoomKey km) iv) 0 p)).length > 10 ∧
      (aesTag ++ b64Encode (iv ++ xorKS (ks (getOrCreateRoomKey km) iv) 0 p)).take 10 =
        encTagOld) := by
    rw [htake]
    rintro ⟨-, h⟩
    exact absurd h (by decide)
  simp only [decryptMessage, Bool.not_true, ite_false, hc1, hc2, if_false]
  exact aesCTRDecrypt_aesCTREncrypt ks (getOrCreateRoomKey km) iv p hk32 hpb hiv hivb hks

/-! ## Data model (`internal/storage/database/chatroom`)

Timestamps are logical `Nat` ticks.  Fields not read by any modelled
operation (status, metadata, delivery records, …) are omitted. -/

/-- An entry of a message's `read_by` array. -/
structure MessageReadBy where
  userId : Str
  readAt : Nat
deriving DecidableEq

/-- A stored chat message (collection `messages`). -/
structure Message where
  id : Nat
  roomId : Nat
  senderId : Str
  content : Str
  mtype : String
  createdAt : Nat
  readBy : List MessageReadBy
deriving DecidableEq

/-- An embedded room member. -/
structure RoomMember where
  userId : Str
  username : Str
  displayName : Str
  role : String
  status : String
deriving DecidableEq

/-- A stored chat room (collection `chat_rooms`). -/
structure Room where
  id : Nat
  name : Str
  rtype : String
  ownerId : Str
  members : List RoomMember
  lastMessageAt : Nat
deriving DecidableEq

/-- The room collection plus the id generator and the logical clock. -/
structure RoomsState where
  nextId : Nat
  clock : Nat
  rooms : List Room
deriving DecidableEq

/-! ## Message store (`MessageStore`, `part_008`) -/

/-- `created_at` descending: the sort order of `GetByRoomID`. -/
def msgGE (a b : Message) : Prop := b.createdAt ≤ a.createdAt

instance : DecidableRel msgGE := fun a b => Nat.decLe _ _

instance : IsTotal Message msgGE := ⟨fun a b => le_total b.createdAt a.createdAt⟩

instance : IsTrans Message msgGE := ⟨fun _ _ _ h1 h2 => le_trans h2 h1⟩

/-- `MessageStore.GetByRoomID` with an empty cursor and no time range:
clamp the limit (default 20, max 100), filter by room, sort `created_at`
descending, over-fetch one to compute `hasMore`.  A non-positive limit is
represented by `0`. -/
def getByRoomID (store : List Message) (roomID : Nat) (limit : Nat) : List Message × Bool :=
  let defaultLimit := 20
  let maxLimit := 100
  let limit := if limit = 0 then defaultLimit else limit
  let limit := if limit > maxLimit then maxLimit else limit
  let sorted := (store.filter (fun m => m.roomId = roomID)).insertionSort msgGE
  let page := sorted.take (limit + 1)
  let hasMore := page.length > limit
  (if hasMore then page.take limit else page, hasMore)

/-- `MessageStore.MarkAsRead` restricted to one document: update only when
the room matches, the optional message id matches, and `read_by` does not
already contain this user; then `$push` a new entry. -/
def markAsReadMsg (roomID : Nat) (userID : Str) (messageID : Option Nat) (now : Nat)
    (m : Message) : Message :=
  if m.roomId = roomID ∧ (∀ mid ∈ messageID, m.id = mid) ∧
      ¬(m.readBy.any (fun rb => rb.userId = userID)) then
    { m with readBy := m.readBy ++ [⟨userID, now⟩] }
  else m

/-- `MessageStore.MarkAsRead` (`UpdateMany` over the collection). -/
def markAsRead (store : List Message) (roomID : Nat) (userID : Str) (messageID : Option Nat)
    (now : Nat) : List Message :=
  store.map (markAsReadMsg roomID userID messageID now)

/-! ## gRPC server (`internal/grpc`, `part_016`, second revision) -/

/-- `systemSenderID`: sender id and message type of system messages. -/
def systemType : String := "system"

/-- `decryptFailedText` `"[解密失敗]"`. -/
def decryptFailedText : Str := utf8Encode [91, 0x89E3, 0x5BC6, 0x5931, 0x6557, 93]

/-- `messageFormatErrorText` `"[訊息格式錯誤]"`. -/
def messageFormatErrorText : Str := utf8Encode [91, 0x8A0A, 0x606F, 0x683C, 0x5F0F, 0x932F, 0x8AA4, 93]

/-- `cleanReadBy`'s loop: skip the sender, de-duplicate via the `seen` set
(which always holds exactly the ids already appended to the result). -/
def cleanReadByGo (seen : List Str) (senderID : Str) : List MessageReadBy → List Str
  | [] => []
  | item :: rest =>
    if item.userId = senderID then cleanReadByGo seen senderID rest
    else if seen.contains item.userId then cleanReadByGo seen senderID rest
    else item.userId :: cleanReadByGo (item.userId :: seen) senderID rest

/-- `cleanReadBy` (`part_016`, lines 998–1015). -/
def cleanReadBy (readByList : List MessageReadBy) (senderID : Str) : List Str :=
  cleanReadByGo [] senderID readByList

/-- A `chat.ChatMessage` as sent to a client. -/
structure ClientMessage where
  id : Nat
  roomId : Nat
  senderId : Str
  content : Str
  mtype : String
  createdAt : Nat
  readBy : List Str
deriving DecidableEq

/-- The per-message body of `Server.GetMessages`: decrypt unless the type is
`system` (surface `[解密失敗]` on failure), replace invalid UTF-8 by
`[訊息格式錯誤]`, and clean `read_by`. -/
def getMessagesItem (ks : KS) (enabled : Bool) (km : KMState) (m : Message) : ClientMessage :=
  let decrypted :=
    if m.mtype ≠ systemType then
      match decryptMessage ks enabled km m.content with
      | some d => d
      | none => decryptFailedText
    else m.content
  let content := if utf8Valid decrypted then decrypted else messageFormatErrorText
  { id := m.id, roomId := m.roomId, senderId := m.senderId, content := content,
    mtype := m.mtype, createdAt := m.createdAt, readBy := cleanReadBy m.readBy m.senderId }

/-- `Server.buildMessageResponse` (the `SendMessage` echo): decrypt unless
system, clean `read_by`; no UTF-8 validation on this path. -/
def buildMessageResponse (ks : KS) (enabled : Bool) (km : KMState) (m : Message) : ClientMessage :=
  let content :=
    if m.mtype ≠ systemType then
      match decryptMessage ks enabled km m.content with
      | some d => d
      | none => decryptFailedText
    else m.content
  { id := m.id, roomId := m.roomId, senderId := m.senderId, content := content,
    mtype := m.mtype, createdAt := m.createdAt, readBy := cleanReadBy m.readBy m.senderId }

/-- `Server.processAndSendMessage`: the message pushed on the stream.
`read_by` is copied verbatim (`grpcReadBy[i] = readBy.UserID`), with no
sender exclusion and no de-duplication. -/
def streamEmitMessage (ks : KS) (enabled : Bool) (km : KMState) (m : Message) : ClientMessage :=
  let decrypted :=
    if m.mtype ≠ systemType then
      match decryptMessage ks enabled km m.content with
      | some d => d
      | none => decryptFailedText
    else m.content
  let content := if utf8Valid decrypted then decrypted else messageFormatErrorText
  { id := m.id, roomId := m.roomId, senderId := m.senderId, content := content,
    mtype := m.mtype, createdAt := m.createdAt, readBy := m.readBy.map (·.userId) }

/-- A `chat.SendMessageRequest`; `content` is the request string as Unicode
scalar values. -/
structure SendMessageReq where
  roomId : Nat
  senderId : Str
  content : List Nat
  mtype : String
deriving DecidableEq

/-- `Server.createEncryptedMessage`: encrypt the content (whatever the
requested type), then persist with `content = ciphertext`,
`type = req.Type`, empty `read_by`.  `mid`/`now` stand for the fresh
ObjectID and `time.Now()` assigned by `MessageStore.Create`. -/
def createEncryptedMessage (ks : KS) (enabled : Bool) (km : KMState) (iv : Str)
    (req : SendMessageReq) (mid now : Nat) : Option Message :=
  match encryptMessage ks enabled km iv (utf8Encode req.content) with
  | none => none
  | some enc =>
    some { id := mid, roomId := req.roomId, senderId := req.senderId, content := enc,
           mtype := req.mtype, createdAt := now, readBy := [] }

/-- The ASCII bytes of `"..."`. -/
def dots3 : List Nat := [46, 46, 46]

/-- `generateLastMessagePreview` (`part_016`, lines 1786–1810), on the
scalar-value representation: `len(content)` is the UTF-8 byte length,
`[]rune(content)` the scalar list.  Media sentinels are `[圖片]`, `[文件]`,
`[語音]`, `[影片]`, `[位置]`; default `[訊息]`. -/
def generateLastMessagePreview (msgType : String) (content : List Nat) : List Nat :=
  if msgType = "text" then
    if (utf8Encode content).length > 30 then
      if content.length > 30 then content.take 30 ++ dots3 else content
    else content
  else if msgType = "image" then [91, 0x5716, 0x7247, 93]
  else if msgType = "file" then [91, 0x6587, 0x4EF6, 93]
  else if msgType = "audio" then [91, 0x8A9E, 0x97F3, 93]
  else if msgType = "video" then [91, 0x5F71, 0x7247, 93]
  else if msgType = "location" then [91, 0x4F4D, 0x7F6E, 93]
  else [91, 0x8A0A, 0x606F, 93]

/-- The `last_message` value written by `Server.updateRoomLastMessage`:
the preview, encrypted with the room's DEK unless the message is a system
message (on encryption failure the plaintext preview is stored). -/
def updateRoomLastMessageStored (ks : KS) (enabled : Bool) (km : KMState) (iv : Str)
    (msgType : String) (content : List Nat) : Str :=
  let preview := generateLastMessagePreview msgType content
  if msgType ≠ systemType then
    match encryptMessage ks enabled km iv (utf8Encode preview) with
    | some e => e
    | none => utf8Encode preview
  else utf8Encode preview

/-- `Server.initializeSeenMessages`: the ids of the most recent
`initialFetchLimit` messages; these seed the session's `seen` set and are
never emitted. -/
def initializeSeenMessages (store : List Message) (roomID : Nat) (initialFetchLimit : Nat) :
    List Nat :=
  ((getByRoomID store roomID initialFetchLimit).1).map (·.id)

/-- The loop body of `Server.fetchAndStreamNewMessages` over one fetched
page: emit each message whose id is not in `seen`, marking it seen first. -/
def tickLoop (seen : List Nat) : List Message → List Message × List Nat
  | [] => ([], seen)
  | m :: rest =>
    if seen.contains m.id then tickLoop seen rest
    else ((m :: (tickLoop (m.id :: seen) rest).1), (tickLoop (m.id :: seen) rest).2)

/-- `Server.fetchAndStreamNewMessages`: fetch the most recent 100 messages
and emit the unseen ones in page order (each then converted by
`streamEmitMessage`). -/
def fetchAndStreamNewMessages (store : List Message) (roomID : Nat) (seen : List Nat) :
    List Message × List Nat :=
  tickLoop seen (getByRoomID store roomID 100).1

/-- The ticks of one `StreamMessages` session: each element of `stores` is
the message collection observed at one 2-second tick. -/
def runTicks (roomID : Nat) (seen : List Nat) : List (List Message) → List Message × List Nat
  | [] => ([], seen)
  | store :: rest =>
    ((fetchAndStreamNewMessages store roomID seen).1 ++
        (runTicks roomID (fetchAndStreamNewMessages store roomID seen).2 rest).1,
      (runTicks roomID (fetchAndStreamNewMessages store roomID seen).2 rest).2)

/-- One `StreamMessages` session: seed `seen` from the snapshot of `store0`,
then run the live-tail ticks.  Returns the messages emitted over the whole
session, in order. -/
def streamSession (store0 : List Message) (roomID : Nat) (initialFetchLimit : Nat)
    (stores : List (List Message)) : List Message :=
  (runTicks roomID (initializeSeenMessages store0 roomID initialFetchLimit) stores).1

/-! ## Room store and `Server.CreateRoom` -/

/-- `roomTypeDirect`. -/
def roomTypeDirect : String := "direct"

/-- `last_message_at` descending: the sort order of `ListUserRooms`. -/
def roomGE (a b : Room) : Prop := b.lastMessageAt ≤ a.lastMessageAt

instance : DecidableRel roomGE := fun a b => Nat.decLe _ _

instance : IsTotal Room roomGE := ⟨fun a b => le_total b.lastMessageAt a.lastMessageAt⟩

instance : IsTrans Room roomGE := ⟨fun _ _ _ h1 h2 => le_trans h2 h1⟩

/-- `ChatRoomStore.ListUserRooms` with an empty cursor: filter rooms whose
embedded members contain the user, sort `last_message_at` descending,
over-fetch one for `hasMore`. -/
def listUserRooms (st : RoomsState) (userID : Str) (limit : Nat) : List Room × Bool :=
  let sorted :=
    (st.rooms.filter (fun r => r.members.any (fun m => m.userId = userID))).insertionSort roomGE
  let page := sorted.take (limit + 1)
  let hasMore := page.length > limit
  (if hasMore then page.take limit else page, hasMore)

/-- `Server.hasSameMembers`: the room's member list has the same size as the
requested member-id set and every member is in it. -/
def hasSameMembers (members : List RoomMember) (memberIDMap : List Str) : Bool :=
  decide (members.length = memberIDMap.length) &&
    members.all (fun m => memberIDMap.contains m.userId)

/-- `Server.findExistingDirectChat`: scan the first `checkLimit` of the
owner's rooms for a direct room with exactly the requested two members.
`memberIds.dedup` is the key set of Go's `memberIDMap`. -/
def findExistingDirectChat (st : RoomsState) (ownerID : Str) (memberIds : List Str)
    (checkLimit : Nat) : Option Room :=
  ((listUserRooms st ownerID checkLimit).1).find? fun room =>
    decide (room.rtype = roomTypeDirect) && decide (room.members.length = 2) &&
      hasSameMembers room.members memberIds.dedup

/-- `ensureOwnerInMembers`. -/
def ensureOwnerInMembers (ownerID : Str) (memberIds : List Str) : List Str :=
  if memberIds.contains ownerID then memberIds else ownerID :: memberIds

/-- `createRoomMembers`: everyone is a plain active `member`. -/
def createRoomMembers (memberIds : List Str) : List RoomMember :=
  memberIds.map fun mid =>
    { userId := mid, username := mid, displayName := mid, role := "member", status := "active" }

/-- A `chat.CreateRoomRequest` (settings omitted: no modelled operation
reads them). -/
structure CreateRoomReq where
  name : Str
  rtype : String
  ownerId : Str
  memberIds : List Str
deriving DecidableEq

/-- A `chat.CreateRoomResponse`, reduced to the fields the claims read. -/
structure CreateRoomResp where
  success : Bool
  roomId : Nat
deriving DecidableEq

/-- `Server.CreateRoom` (`part_016`, lines 1123–1208): direct-chat
de-duplication for two-member direct rooms, then owner insertion, member
construction and persistence (`ChatRoomStore.Create` assigns the fresh id
and sets `last_message_at` to now).  No input validation is performed. -/
def createRoomCore (checkLimit : Nat) (st : RoomsState) (req : CreateRoomReq) :
    CreateRoomResp × RoomsState :=
  let createNew : CreateRoomResp × RoomsState :=
    let memberIds := ensureOwnerInMembers req.ownerId req.memberIds
    let members := createRoomMembers memberIds
    let room : Room :=
      { id := st.nextId, name := req.name, rtype := req.rtype, ownerId := req.ownerId,
        members := members, lastMessageAt := st.clock }
    ({ success := true, roomId := room.id },
      { nextId := st.nextId + 1, clock := st.clock + 1, rooms := room :: st.rooms })
  if req.rtype = roomTypeDirect ∧ req.memberIds.length = 2 then
    match findExistingDirectChat st req.ownerId req.memberIds checkLimit with
    | some existing => ({ success := true, roomId := existing.id }, st)
    | none => createNew
  else createNew

/-! ## HTTP adapter validators (`internal/platform/middleware/validation.go`)
and the HTTP `createRoom` handler (`internal/platform/server/http.go`).

`strings.TrimSpace` is modelled on ASCII whitespace, which is exact for the
ASCII inputs considered here. -/

/-- An ASCII whitespace byte. -/
def isSpaceByte (b : Nat) : Bool :=
  b = 32 || b = 9 || b = 10 || b = 13 || b = 11 || b = 12

/-- `strings.TrimSpace`. -/
def trimSpace (s : Str) : Str :=
  ((s.dropWhile isSpaceByte).reverse.dropWhile isSpaceByte).reverse

/-- `constants.MaxUserIDLength`. -/
def maxUserIDLength : Nat := 100

/-- `constants.MinRoomNameLength` and `constants.DefaultMaxRoomNameLength`. -/
def minRoomNameLength : Nat := 1

def defaultMaxRoomNameLength : Nat := 100

/-- `middleware.ValidateUserID`: non-blank, length-bounded, and free of the
forbidden characters NUL `$` `{` `}` `[` `]` (bytes 0, 36, 123, 125, 91,
93). -/
def validateUserID (userID : Str) : Bool :=
  !(trimSpace userID).isEmpty && decide (userID.length ≤ maxUserIDLength) &&
    !(userID.any fun b => b = 0 || b = 36 || b = 123 || b = 125 || b = 91 || b = 93)

/-- `middleware.ValidateRoomName`: trimmed length at least the minimum,
raw length bounded, no NUL byte. -/
def validateRoomName (name : Str) : Bool :=
  decide (minRoomNameLength ≤ (trimSpace name).length) &&
    decide (name.length ≤ defaultMaxRoomNameLength) && !(name.contains 0)

/-- `middleware.SanitizeInput`: drop control characters other than newline
and tab (this also removes NUL). -/
def sanitizeInput (s : Str) : Str :=
  s.filter fun b => 32 ≤ b || b = 10 || b = 9

/-- The HTTP `createRoom` request body. -/
structure HttpCreateRoomReq where
  name : Str
  rtype : String
  ownerId : Str
  members : List Str
deriving DecidableEq

/-- Outcome of the HTTP `createRoom` handler before any downstream call:
either a synchronous 400 response, or the `CreateRoomRequest` passed to the
gRPC core. -/
inductive HttpCreateRoomResult where
  | badRequest : HttpCreateRoomResult
  | grpcCall : CreateRoomReq → HttpCreateRoomResult
deriving DecidableEq

/-- The HTTP `createRoom` handler (`http.go`, lines 181–244) up to the gRPC
call: validate the room name, the owner id, the member count and every
member id; any failure returns 400 synchronously with no downstream call. -/
def httpCreateRoom (maxMembers : Nat) (req : HttpCreateRoomReq) : HttpCreateRoomResult :=
  if !validateRoomName req.name then .badRequest
  else if !validateUserID req.ownerId then .badRequest
  else if req.members.length > maxMembers then .badRequest
  else if req.members.any (fun m => !validateUserID m) then .badRequest
  else .grpcCall
    { name := sanitizeInput req.name, rtype := req.rtype, ownerId := req.ownerId,
      memberIds := req.members }

/-! ## C2: `read_by` hygiene on the three read paths -/

theorem cleanReadByGo_spec (senderID : Str) :
    ∀ (l : List MessageReadBy) (seen : List Str),
      (∀ x ∈ cleanReadByGo seen senderID l, x ≠ senderID ∧ x ∉ seen) ∧
      (cleanReadByGo seen senderID l).Nodup := by
  intro l
  induction l with
  | nil => intro seen; simp [cleanReadByGo]
  | cons item rest ih =>
    intro seen
    by_cases h1 : item.userId = senderID
    · simpa [cleanReadByGo, h1] using ih seen
    · by_cases h2 : item.userId ∈ seen
      · simpa [cleanReadByGo, h1, h2, List.elem_iff] using ih seen
      · have hcon : seen.contains item.userId = false := by
          simpa [List.elem_iff] using h2
        obtain ⟨ihA, ihB⟩ := ih (item.userId :: seen)
        refine ⟨?_, ?_⟩
        · intro x hx
          simp only [cleanReadByGo, if_neg h1, hcon, Bool.false_eq_true, if_false,
            List.mem_cons] at hx
          rcases hx with rfl | hx
          · exact ⟨h1, h2⟩
          · obtain ⟨hxs, hxseen⟩ := ihA x hx
            simp only [List.mem_cons, not_or] at hxseen
            exact ⟨hxs, hxseen.2⟩
        · simp only [cleanReadByGo, if_neg h1, hcon, Bool.false_eq_true, if_false,
            List.nodup_cons]
          refine ⟨?_, ihB⟩
          intro hx
          obtain ⟨-, hxseen⟩ := ihA _ hx
          simp at hxseen

/-- C2 (amended).
`GetMessages` items and the `SendMessage` echo clean `read_by`: the sender
id never appears and no user id is repeated.  Messages emitted on the
`StreamMessages` stream, however, carry `read_by` verbatim
(`read_by.map userId`), with no sender exclusion or de-duplication. -/
theorem readBy_clean_on_reads_raw_on_stream :
    (∀ (ks : KS) (enabled : Bool) (km : KMState) (m : Message),
        m.senderId ∉ (getMessagesItem ks enabled km m).readBy ∧
        (getMessagesItem ks enabled km m).readBy.Nodup ∧
        m.senderId ∉ (buildMessageResponse ks enabled km m).readBy ∧
        (buildMessageResponse ks enabled km m).readBy.Nodup) ∧
    (∀ (ks : KS) (enabled : Bool) (km : KMState) (m : Message),
        (streamEmitMessage ks enabled km m).readBy = m.readBy.map (·.userId)) := by
  constructor
  · intro ks enabled km m
    obtain ⟨hA, hB⟩ := cleanReadByGo_spec m.senderId m.readBy []
    have hns : m.senderId ∉ cleanReadBy m.readBy m.senderId := by
      intro hx
      exact absurd rfl (hA _ hx).1
    exact ⟨hns, hB, hns, hB⟩
  · intro ks enabled km m
    rfl

/-- The key-manager state used by concrete counterexamples and witnesses. -/
def kmW : KMState :=
  { activeKey := List.replicate 32 0, version := 1, oldKeys := [], keepOldKeys := 5 }

/-- A stored message whose sender has marked their own message as read
(reachable: `MarkAsRead` does not exclude the sender). -/
def mC2 : Message :=
  { id := 1, roomId := 1, senderId := [97], content := [104, 105], mtype := "system",
    createdAt := 0, readBy := [⟨[97], 0⟩] }

/-- Counterexample to C2 as stated: the message pushed on the stream by
`processAndSendMessage` reports the sender in `read_by`. -/
theorem stream_emits_sender_in_readBy :
    mC2.senderId ∈ (streamEmitMessage ksW true kmW mC2).readBy := by decide

/-! ## C3 and C4: stream ordering and deduplication -/

theorem tickLoop_sublist : ∀ (page : List Message) (seen : List Nat),
    List.Sublist (tickLoop seen page).1 page := by
  intro page
  induction page with
  | nil => intro seen; simp [tickLoop]
  | cons m rest ih =>
    intro seen
    by_cases hc : m.id ∈ seen
    · simpa [tickLoop, hc] using (ih seen).cons m
    · simpa [tickLoop, hc] using (ih (m.id :: seen)).cons₂ m

theorem getByRoomID_pairwise (store : List Message) (roomID limit : Nat) :
    ((getByRoomID store roomID limit).1).Pairwise msgGE := by
  have hs : ((store.filter (fun m => m.roomId = roomID)).insertionSort msgGE).Pairwise msgGE :=
    List.sorted_insertionSort msgGE _
  have hsub : List.Sublist (getByRoomID store roomID limit).1
      ((store.filter (fun m => m.roomId = roomID)).insertionSort msgGE) := by
    unfold getByRoomID
    dsimp only
    repeat' split
    all_goals first
      | exact (List.take_sublist _ _).trans (List.take_sublist _ _)
      | exact List.take_sublist _ _
  exact List.Pairwise.sublist hsub hs

/-- C3 (amended).
Within a single tick of a `StreamMessages` session the messages are emitted
in *descending* `createdAt` order: the store page arrives sorted
`created_at` descending and the server iterates it in that order, so for
any two messages emitted in the same tick the one with the *later*
`createdAt` is sent first. -/
theorem tick_emits_descending (store : List Message) (roomID : Nat) (seen : List Nat) :
    ((fetchAndStreamNewMessages store roomID seen).1).Pairwise msgGE :=
  List.Pairwise.sublist (tickLoop_sublist _ _) (getByRoomID_pairwise store roomID 100)

/-- Two messages in ascending `createdAt` order in the store. -/
def mT1 : Message :=
  { id := 1, roomId := 1, senderId := [97], content := [104], mtype := "text",
    createdAt := 1, readBy := [] }

def mT2 : Message :=
  { id := 2, roomId := 1, senderId := [97], content := [104], mtype := "text",
    createdAt := 2, readBy := [] }

/-- Counterexample to C3 as stated: in one tick over a store holding
messages with `createdAt` 1 and 2, the tick emits `createdAt` order
`[2, 1]` — the message with the *earlier* `createdAt` is not sent first. -/
theorem tick_emits_newest_first :
    ((fetchAndStreamNewMessages [mT1, mT2] 1 []).1.map (fun m => m.createdAt)) = [2, 1] ∧
    ¬ ((fetchAndStreamNewMessages [mT1, mT2] 1 []).1.Pairwise
        (fun a b => a.createdAt ≤ b.createdAt)) := by
  constructor
  · decide
  · decide

theorem tickLoop_spec : ∀ (page : List Message) (seen : List Nat),
    ((tickLoop seen page).1.map (fun m => m.id)).Nodup ∧
    (∀ x ∈ (tickLoop seen page).1.map (fun m => m.id), x ∉ seen) ∧
    (∀ x ∈ seen, x ∈ (tickLoop seen page).2) ∧
    (∀ x ∈ (tickLoop seen page).1.map (fun m => m.id), x ∈ (tickLoop seen page).2) := by
  intro page
  induction page with
  | nil => intro seen; simp [tickLoop]
  | cons m rest ih =>
    intro seen
    by_cases hc : m.id ∈ seen
    · simpa [tickLoop, hc] using ih seen
    · have hcon : seen.contains m.id = false := by simpa [List.elem_iff] using hc
      obtain ⟨ih1, ih2, ih3, ih4⟩ := ih (m.id :: seen)
      simp only [tickLoop, hcon, Bool.false_eq_true, if_false, List.map_cons, List.nodup_cons,
        List.mem_cons]
      refine ⟨⟨?_, ih1⟩, ?_, ?_, ?_⟩
      · intro hx
        have := ih2 _ hx
        simp at this
      · rintro x (rfl | hx)
        · exact hc
        · have := ih2 _ hx
          simp only [List.mem_cons, not_or] at this
          exact this.2
      · intro x hx
        exact ih3 x (by simp [hx])
      · rintro x (rfl | hx)
        · exact ih3 _ (by simp)
        · exact ih4 _ hx

theorem runTicks_spec : ∀ (stores : List (List Message)) (roomID : Nat) (seen : List Nat),
    (((runTicks roomID seen stores).1.map (fun m => m.id)).Nodup) ∧
    (∀ x ∈ (runTicks roomID seen stores).1.map (fun m => m.id), x ∉ seen) := by
  intro stores
  induction stores with
  | nil => intro roomID seen; simp [runTicks]
  | cons store rest ih =>
    intro roomID seen
    obtain ⟨t1, t2, t3, t4⟩ := tickLoop_spec (getByRoomID store roomID 100).1 seen
    obtain ⟨r1, r2⟩ := ih roomID (fetchAndStreamNewMessages store roomID seen).2
    simp only [runTicks, List.map_append, List.nodup_append]
    refine ⟨⟨t1, r1, ?_⟩, ?_⟩
    · intro x hx hx2
      exact absurd (t4 x hx) (r2 x hx2)
    · intro x hx
      rcases List.mem_append.mp hx with hx | hx
      · exact t2 x hx
      · intro hseen
        exact absurd (t3 x hseen) (r2 x hx)

/-- C4.
In every `StreamMessages` session, each message id is emitted at most once
(the emitted id list has no duplicates), and no message that was among the
most recent `initialFetchLimit` messages at session open (the snapshot that
seeds `seen`) is ever emitted in that session. -/
theorem stream_at_most_once_no_snapshot_replay (store0 : List Message)
    (roomID initLimit : Nat) (stores : List (List Message)) :
    ((streamSession store0 roomID initLimit stores).map (fun m => m.id)).Nodup ∧
    ∀ m ∈ (getByRoomID store0 roomID initLimit).1,
      m.id ∉ (streamSession store0 roomID initLimit stores).map (fun m => m.id) := by
  obtain ⟨h1, h2⟩ :=
    runTicks_spec stores roomID (initializeSeenMessages store0 roomID initLimit)
  refine ⟨h1, ?_⟩
  intro m hm hmem
  exact absurd (List.mem_map_of_mem (fun m => m.id) hm) (h2 _ hmem)

/-- Witness for C4: a one-message store; the snapshot-seeded message is not
emitted by a session whose tick sees the same store. -/
theorem stream_no_snapshot_replay_witness :
    mT1 ∈ (getByRoomID [mT1] 1 100).1 ∧
    mT1.id ∉ (streamSession [mT1] 1 100 [[mT1]]).map (fun m => m.id) :=
  ⟨by decide, (stream_at_most_once_no_snapshot_replay [mT1] 1 100 [[mT1]]).2 mT1 (by decide)⟩

/-! ## C6: `MarkAsRead` idempotence -/

theorem markAsReadMsg_fixed (roomID : Nat) (userID : Str) (messageID : Option Nat) (now : Nat)
    (m : Message) (h : (m.readBy.map (fun rb => rb.userId)).count userID = 1) :
    markAsReadMsg roomID userID messageID now m = m := by
  have hmem : userID ∈ m.readBy.map (fun rb => rb.userId) := by
    rw [← List.count_pos_iff]
    omega
  have hany : m.readBy.any (fun rb => rb.userId = userID) = true := by
    obtain ⟨rb, hrb, hrbe⟩ := List.mem_map.mp hmem
    exact List.any_eq_true.mpr ⟨rb, hrb, by simp [hrbe]⟩
  unfold markAsReadMsg
  rw [if_neg]
  rintro ⟨-, -, hno⟩
  exact hno hany

/-- C6.
`MarkAsRead` is idempotent for a targeted message: for any message `m` of
the room in which the user appears at most once in `read_by` (in particular
a fresh message, where the count is zero), after `n ≥ 1` applications of
`MarkAsRead(room, u, m.id)` the user appears in `read_by` exactly once —
the update filter `read_by.user_id != userId` skips already-marked
messages. -/
theorem markAsRead_idempotent (roomID : Nat) (userID : Str) (now n : Nat) (m : Message)
    (hn : 1 ≤ n) (hroom : m.roomId = roomID)
    (h0 : (m.readBy.map (fun rb => rb.userId)).count userID ≤ 1) :
    ((((markAsReadMsg roomID userID (some m.id) now)^[n] m).readBy.map
      (fun rb => rb.userId)).count userID) = 1 := by
  obtain ⟨k, rfl⟩ : ∃ k, n = k + 1 := ⟨n - 1, by omega⟩
  rw [Function.iterate_succ_apply]
  rcases Nat.lt_or_ge ((m.readBy.map (fun rb => rb.userId)).count userID) 1 with hc | hc
  · have hc0 : (m.readBy.map (fun rb => rb.userId)).count userID = 0 := by omega
    have hnone : ¬ (m.readBy.any (fun rb => rb.userId = userID) = true) := by
      intro hany
      obtain ⟨rb, hrb, hrbe⟩ := List.any_eq_true.mp hany
      have : userID ∈ m.readBy.map (fun rb => rb.userId) :=
        List.mem_map.mpr ⟨rb, hrb, by simpa using hrbe⟩
      rw [← List.count_pos_iff] at this
      omega
    have hstep : markAsReadMsg roomID userID (some m.id) now m =
        { m with readBy := m.readBy ++ [⟨userID, now⟩] } := by
      unfold markAsReadMsg
      rw [if_pos]
      exact ⟨hroom, by simp, hnone⟩
    have hcount : (({ m with readBy := m.readBy ++ [⟨userID, now⟩] } : Message).readBy.map
        (fun rb => rb.userId)).count userID = 1 := by
      simp [List.count_append, hc0]
    have hfix : (markAsReadMsg roomID userID (some m.id) now)^[k]
        ({ m with readBy := m.readBy ++ [⟨userID, now⟩] } : Message) =
        { m with readBy := m.readBy ++ [⟨userID, now⟩] } :=
      Function.iterate_fixed (markAsReadMsg_fixed _ _ _ _ _ hcount) k
    rw [hstep, hfix, hcount]
  · have hc1 : (m.readBy.map (fun rb => rb.userId)).count userID = 1 := by omega
    have hstep : markAsReadMsg roomID userID (some m.id) now m = m :=
      markAsReadMsg_fixed _ _ _ _ _ hc1
    rw [hstep, Function.iterate_fixed hstep k, hc1]

/-- Witness for C6: marking a fresh message read twice leaves one entry. -/
theorem markAsRead_idempotent_witness :
    ((((markAsReadMsg 1 [98] (some mT1.id) 5)^[2] mT1).readBy.map
      (fun rb => rb.userId)).count [98]) = 1 :=
  markAsRead_idempotent 1 [98] 5 2 mT1 (by decide) (by decide) (by decide)

/-! ## C5: direct-chat creation is idempotent -/

theorem dedup_pair (A B : Str) (hAB : A ≠ B) : [A, B].dedup = [A, B] := by
  rw [List.dedup_cons_of_not_mem (by simp [hAB])]
  rfl

/-- The room built by the create path of `Server.CreateRoom` for
`CreateRoom(direct, A, [A, B])` with `A` already in the member list. -/
def newDirectRoom (st0 : RoomsState) (nm A B : Str) : Room :=
  { id := st0.nextId, name := nm, rtype := "direct", ownerId := A,
    members := createRoomMembers [A, B], lastMessageAt := st0.clock }

/-- The room collection state after that create. -/
def stAfterCreate (st0 : RoomsState) (nm A B : Str) : RoomsState :=
  { nextId := st0.nextId + 1, clock := st0.clock + 1,
    rooms := newDirectRoom st0 nm A B :: st0.rooms }

/-- C5.
`CreateRoom(direct, A, [A, B])` is idempotent: for distinct users `A` and
`B` and a dedup-scan bound of at least one room, a second identical call
returns success with the same room id as the first call and leaves the room
collection unchanged (no second room is created), whether the first call
found an existing direct room or created one (the created room has the
newest `last_message_at`, so it heads the scanned prefix of the owner's
rooms). -/
theorem createRoom_direct_idempotent (st0 : RoomsState) (nm A B : Str)
    (checkLimit : Nat) (hcl : 1 ≤ checkLimit) (hAB : A ≠ B)
    (hclock : ∀ r ∈ st0.rooms, r.lastMessageAt < st0.clock) :
    (createRoomCore checkLimit (createRoomCore checkLimit st0 ⟨nm, "direct", A, [A, B]⟩).2
        ⟨nm, "direct", A, [A, B]⟩).1.success = true ∧
    (createRoomCore checkLimit (createRoomCore checkLimit st0 ⟨nm, "direct", A, [A, B]⟩).2
        ⟨nm, "direct", A, [A, B]⟩).1.roomId =
      (createRoomCore checkLimit st0 ⟨nm, "direct", A, [A, B]⟩).1.roomId ∧
    (createRoomCore checkLimit (createRoomCore checkLimit st0 ⟨nm, "direct", A, [A, B]⟩).2
        ⟨nm, "direct", A, [A, B]⟩).2 =
      (createRoomCore checkLimit st0 ⟨nm, "direct", A, [A, B]⟩).2 := by
  have hcond : (⟨nm, "direct", A, [A, B]⟩ : CreateRoomReq).rtype = roomTypeDirect ∧
      (⟨nm, "direct", A, [A, B]⟩ : CreateRoomReq).memberIds.length = 2 := ⟨rfl, rfl⟩
  cases hfind : findExistingDirectChat st0 A [A, B] checkLimit with
  | some ex =>
    have h1 : createRoomCore checkLimit st0 ⟨nm, "direct", A, [A, B]⟩ =
        ({ success := true, roomId := ex.id }, st0) := by
      unfold createRoomCore
      rw [if_pos hcond, hfind]
    rw [h1, h1]
    simp
  | none =>
    have hens : ensureOwnerInMembers A [A, B] = [A, B] := by
      simp [ensureOwnerInMembers]
    have h1 : createRoomCore checkLimit st0 ⟨nm, "direct", A, [A, B]⟩ =
        ({ success := true, roomId := st0.nextId }, stAfterCreate st0 nm A B) := by
      unfold createRoomCore
      rw [if_pos hcond, hfind]
      dsimp only
      rw [hens]
      rfl
    rw [h1]
    have hXfilter : (newDirectRoom st0 nm A B).members.any (fun m => m.userId = A) = true := by
      simp [newDirectRoom, createRoomMembers]
    have hfil : ((stAfterCreate st0 nm A B).rooms).filter
          (fun r => r.members.any (fun m => m.userId = A)) =
        newDirectRoom st0 nm A B ::
          st0.rooms.filter (fun r => r.members.any (fun m => m.userId = A)) := by
      show (newDirectRoom st0 nm A B :: st0.rooms).filter _ = _
      rw [List.filter_cons_of_pos (by simpa using hXfilter)]
    have hsorted : ((newDirectRoom st0 nm A B ::
          st0.rooms.filter (fun r => r.members.any (fun m => m.userId = A))).insertionSort
            roomGE) =
        newDirectRoom st0 nm A B ::
          ((st0.rooms.filter (fun r => r.members.any (fun m => m.userId = A))).insertionSort
            roomGE) := by
      refine List.insertionSort_cons (r := roomGE) ?_
      intro b hb
      exact le_of_lt (hclock b (List.mem_of_mem_filter hb))
    have hXpred : (fun room => decide (room.rtype = roomTypeDirect) &&
        decide (room.members.length = 2) &&
        hasSameMembers room.members ([A, B] : List Str).dedup)
        (newDirectRoom st0 nm A B) = true := by
      simp [hasSameMembers, dedup_pair A B hAB, newDirectRoom, createRoomMembers, roomTypeDirect]
    have hfind2 : findExistingDirectChat (stAfterCreate st0 nm A B) A [A, B] checkLimit =
        some (newDirectRoom st0 nm A B) := by
      obtain ⟨k, rfl⟩ : ∃ k, checkLimit = k + 1 := ⟨checkLimit - 1, by omega⟩
      unfold findExistingDirectChat listUserRooms
      dsimp only
      rw [hfil, hsorted, List.take_succ_cons]
      split
      · rw [List.take_succ_cons]
        exact List.find?_cons_of_pos _ hXpred
      · exact List.find?_cons_of_pos _ hXpred
    have h2 : createRoomCore checkLimit (stAfterCreate st0 nm A B) ⟨nm, "direct", A, [A, B]⟩ =
        ({ success := true, roomId := (newDirectRoom st0 nm A B).id },
          stAfterCreate st0 nm A B) := by
      unfold createRoomCore
      rw [if_pos hcond, hfind2]
    rw [h2]
    exact ⟨rfl, rfl, rfl⟩

/-- Witness for C5 at a concrete state and member pair. -/
theorem createRoom_direct_idempotent_witness :
    (createRoomCore 100 (createRoomCore 100 ⟨0, 0, []⟩ ⟨[104], "direct", [97], [[97], [98]]⟩).2
        ⟨[104], "direct", [97], [[97], [98]]⟩).1.success = true ∧
    (createRoomCore 100 (createRoomCore 100 ⟨0, 0, []⟩ ⟨[104], "direct", [97], [[97], [98]]⟩).2
        ⟨[104], "direct", [97], [[97], [98]]⟩).1.roomId =
      (createRoomCore 100 ⟨0, 0, []⟩ ⟨[104], "direct", [97], [[97], [98]]⟩).1.roomId ∧
    (createRoomCore 100 (createRoomCore 100 ⟨0, 0, []⟩ ⟨[104], "direct", [97], [[97], [98]]⟩).2
        ⟨[104], "direct", [97], [[97], [98]]⟩).2 =
      (createRoomCore 100 ⟨0, 0, []⟩ ⟨[104], "direct", [97], [[97], [98]]⟩).2 :=
  createRoom_direct_idempotent ⟨0, 0, []⟩ [104] [97] [98] 100 (by decide) (by decide)
    (by intro r hr; simp at hr)

/-! ## C9: where input validation actually happens -/

/-- C9 (amended).
Input validation for room creation lives in the HTTP adapter, not in the
Room/Message Core: the HTTP `createRoom` handler validates the room name,
the owner id, the member count against `maxMembers` and every member id
(hex-unsafe characters and oversizes rejected), and returns a 400
synchronously — with no gRPC, store or cipher call — exactly when any of
these fail.  The gRPC `Server.CreateRoom` itself performs no input
validation and never rejects a request. -/
theorem createRoom_validation_in_http_adapter_only :
    (∀ (maxMembers : Nat) (req : HttpCreateRoomReq),
        httpCreateRoom maxMembers req = .badRequest ↔
          ¬(validateRoomName req.name = true ∧ validateUserID req.ownerId = true ∧
            req.members.length ≤ maxMembers ∧
            ∀ m ∈ req.members, validateUserID m = true)) ∧
    (∀ (checkLimit : Nat) (st : RoomsState) (req : CreateRoomReq),
        (createRoomCore checkLimit st req).1.success = true) := by
  constructor
  · intro maxMembers req
    unfold httpCreateRoom
    cases hb1 : validateRoomName req.name <;>
    cases hb2 : validateUserID req.ownerId <;>
    cases hb4 : req.members.any (fun m => !validateUserID m) <;>
    by_cases hb3 : req.members.length > maxMembers <;>
    simp_all [List.any_eq_true, List.any_eq_false, Bool.not_eq_true']
  · intro checkLimit st req
    unfold createRoomCore
    dsimp only
    split
    · cases hfind : findExistingDirectChat st req.ownerId req.memberIds checkLimit with
      | some ex => simp [hfind]
      | none => simp [hfind]
    · rfl

/-- Counterexample to C9 as stated: the owner id `"$"` fails the
repository's own user-id validation (forbidden character), yet the gRPC
`Server.CreateRoom` performs the store insert and returns success — no
synchronous validation error, and store work is done after the validation
failure. -/
theorem createRoom_core_accepts_invalid_owner :
    validateUserID [36] = false ∧
    (createRoomCore 100 ⟨0, 0, []⟩ ⟨[110], "group", [36], [[97]]⟩).1.success = true ∧
    (createRoomCore 100 ⟨0, 0, []⟩ ⟨[110], "group", [36], [[97]]⟩).2.rooms.length = 1 := by
  refine ⟨by decide, by decide, by decide⟩

/-! ## UTF-8 and envelope support lemmas -/

theorem utf8EncodeChar_ne_nil (u : Nat) : utf8EncodeChar u ≠ [] := by
  unfold utf8EncodeChar
  split_ifs <;> simp

theorem utf8EncodeChar_length_pos (u : Nat) : 1 ≤ (utf8EncodeChar u).length := by
  unfold utf8EncodeChar
  split_ifs <;> simp

theorem utf8EncodeChar_lt_256 (u : Nat) (hu : u < 0x110000) :
    ∀ b ∈ utf8EncodeChar u, b < 256 := by
  unfold utf8EncodeChar
  split_ifs <;> intro b hb <;> simp only [List.mem_cons, List.mem_singleton,
    List.not_mem_nil, or_false] at hb <;> rcases hb with rfl | rfl | rfl | rfl <;> omega

theorem utf8Encode_ne_nil (l : List Nat) (h : l ≠ []) : utf8Encode l ≠ [] := by
  cases l with
  | nil => exact absurd rfl h
  | cons u rest =>
    simp only [utf8Encode, List.flatMap_cons]
    intro hc
    exact utf8EncodeChar_ne_nil u (List.append_eq_nil.mp hc).1

theorem utf8Encode_lt_256 (l : List Nat) (hl : ∀ u ∈ l, u < 0x110000) :
    ∀ b ∈ utf8Encode l, b < 256 := by
  intro b hb
  obtain ⟨u, hu, hbu⟩ := List.mem_flatMap.mp hb
  exact utf8EncodeChar_lt_256 u (hl u hu) b hbu

theorem utf8Encode_length_ge : ∀ l : List Nat, l.length ≤ (utf8Encode l).length := by
  intro l
  induction l with
  | nil => simp [utf8Encode]
  | cons u rest ih =>
    simp only [utf8Encode, List.flatMap_cons, List.length_append, List.length_cons]
    have := utf8EncodeChar_length_pos u
    simp only [utf8Encode] at ih
    omega

theorem b64Encode_lt_128 : ∀ bs : Str, (∀ b ∈ bs, b < 256) → ∀ c ∈ b64Encode bs, c < 128
  | [], _ => by simp [b64Encode]
  | [b0], h => by
    have hb0 : b0 < 256 := h b0 (by simp)
    intro c hc
    have hc2 : c ∈ [b64Char (b0 / 4), b64Char (b0 % 4 * 16), 61, 61] := hc
    simp only [List.mem_cons, List.not_mem_nil, or_false] at hc2
    rcases hc2 with rfl | rfl | rfl | rfl
    · exact b64Char_lt_128 _ (by omega)
    · exact b64Char_lt_128 _ (by omega)
    · omega
    · omega
  | [b0, b1], h => by
    have hb0 : b0 < 256 := h b0 (by simp)
    have hb1 : b1 < 256 := h b1 (by simp)
    intro c hc
    have hc2 : c ∈ [b64Char (b0 / 4), b64Char (b0 % 4 * 16 + b1 / 16),
        b64Char (b1 % 16 * 4), 61] := hc
    simp only [List.mem_cons, List.not_mem_nil, or_false] at hc2
    rcases hc2 with rfl | rfl | rfl | rfl
    · exact b64Char_lt_128 _ (by omega)
    · exact b64Char_lt_128 _ (by omega)
    · exact b64Char_lt_128 _ (by omega)
    · omega
  | b0 :: b1 :: b2 :: rest, h => by
    have hb0 : b0 < 256 := h b0 (by simp)
    have hb1 : b1 < 256 := h b1 (by simp)
    have hb2 : b2 < 256 := h b2 (by simp)
    have ih := b64Encode_lt_128 rest (fun b hb => h b (by simp [hb]))
    intro c hc
    have hc2 : c ∈ b64Char (b0 / 4) :: b64Char (b0 % 4 * 16 + b1 / 16) ::
        b64Char (b1 % 16 * 4 + b2 / 64) :: b64Char (b2 % 64) :: b64Encode rest := hc
    simp only [List.mem_cons] at hc2
    rcases hc2 with rfl | rfl | rfl | rfl | hc2
    · exact b64Char_lt_128 _ (by omega)
    · exact b64Char_lt_128 _ (by omega)
    · exact b64Char_lt_128 _ (by omega)
    · exact b64Char_lt_128 _ (by omega)
    · exact ih c hc2

theorem utf8Step_ascii (b : Nat) (rest : Str) (hb : b < 0x80) :
    utf8Step (b :: rest) = some rest := by
  unfold utf8Step
  dsimp only
  rw [if_pos hb]

theorem ascii_utf8ValidFuel : ∀ (fuel : Nat) (l : Str), l.length ≤ fuel →
    (∀ b ∈ l, b < 128) → utf8ValidFuel fuel l = true
  | fuel, [], _, _ => by cases fuel <;> rfl
  | 0, b :: rest, hlen, _ => by simp at hlen
  | fuel + 1, b :: rest, hlen, h => by
    have hb : b < 128 := h b (by simp)
    rw [utf8ValidFuel, utf8Step_ascii b rest (by omega)]
    exact ascii_utf8ValidFuel fuel rest (by simp at hlen; omega)
      (fun x hx => h x (by simp [hx]))

theorem ascii_utf8Valid (l : Str) (h : ∀ b ∈ l, b < 128) : utf8Valid l = true := by
  unfold utf8Valid
  exact ascii_utf8ValidFuel l.length l le_rfl h

/-! ## C8: last-message preview -/

/-- `generateLastMessagePreview` on `text`: the outer byte-length guard
changes nothing, because more than 30 scalars forces more than 30 bytes. -/
theorem preview_text_eq (content : List Nat) :
    generateLastMessagePreview "text" content =
      if content.length > 30 then content.take 30 ++ dots3 else content := by
  unfold generateLastMessagePreview
  rw [if_pos rfl]
  by_cases h : content.length > 30
  · have hb : (utf8Encode content).length > 30 :=
      lt_of_lt_of_le h (utf8Encode_length_ge content)
    rw [if_pos hb, if_pos h]
  · by_cases hb : (utf8Encode content).length > 30
    · rw [if_pos hb, if_neg h]
    · rw [if_neg hb, if_neg h]

/-- C8.
After a successful `SendMessage` of type `text`, the stored `last_message`,
decrypted with the room's DEK, equals the content's first 30 Unicode
scalars followed by `"..."` when the content exceeds 30 scalars, and the
full content otherwise; and for a system message the stored preview is the
plaintext preview (no encryption). -/
theorem lastMessage_preview_roundtrip (ks : KS) (km : KMState) (iv : Str) (content : List Nat)
    (hkey : km.activeKey.length = 32) (hc : content ≠ []) (hcv : ∀ u ∈ content, u < 0x110000)
    (hiv : iv.length = 16) (hivb : ∀ b ∈ iv, b < 256)
    (hks : ∀ i, ks km.activeKey iv i < 256) :
    (decryptMessage ks true km (updateRoomLastMessageStored ks true km iv "text" content) =
      some (utf8Encode (if content.length > 30 then content.take 30 ++ dots3 else content))) ∧
    (∀ scontent : List Nat, updateRoomLastMessageStored ks true km iv "system" scontent =
      utf8Encode (generateLastMessagePreview "system" scontent)) := by
  constructor
  · have hpne : (if content.length > 30 then content.take 30 ++ dots3 else content) ≠ [] := by
      split
      · simp [dots3]
      · exact hc
    have hpv : ∀ u ∈ (if content.length > 30 then content.take 30 ++ dots3 else content),
        u < 0x110000 := by
      intro u hu
      split at hu
      · rcases List.mem_append.mp hu with hu | hu
        · exact hcv u (List.mem_of_mem_take hu)
        · simp only [dots3, List.mem_cons, List.not_mem_nil, or_false] at hu
          rcases hu with rfl | rfl | rfl <;> omega
      · exact hcv u hu
    have hroundtrip := decryptMessage_encryptMessage ks km iv
      (utf8Encode (if content.length > 30 then content.take 30 ++ dots3 else content))
      hkey (utf8Encode_ne_nil _ hpne) (utf8Encode_lt_256 _ hpv) hiv hivb hks
    have hencOk : ∃ e, encryptMessage ks true km iv
        (utf8Encode (if content.length > 30 then content.take 30 ++ dots3 else content)) =
        some e := by
      unfold encryptMessage aesCTREncrypt
      rw [if_neg (by simp), if_neg (fun hne => hne hkey),
        if_neg (utf8Encode_ne_nil _ hpne)]
      exact ⟨_, rfl⟩
    obtain ⟨e, he⟩ := hencOk
    have hstored : updateRoomLastMessageStored ks true km iv "text" content = e := by
      unfold updateRoomLastMessageStored
      rw [if_pos (by decide : ("text" : String) ≠ systemType)]
      rw [preview_text_eq, he]
    rw [hstored]
    rw [he, Option.some_bind] at hroundtrip
    exact hroundtrip
  · intro scontent
    unfold updateRoomLastMessageStored
    rw [if_neg (by simp [systemType])]

/-- Witness for C8 at the E3 scenario: forty `"A"`s truncate to thirty plus
`"..."`. -/
theorem lastMessage_preview_roundtrip_witness :
    (decryptMessage ksW true kmW
        (updateRoomLastMessageStored ksW true kmW (List.replicate 16 3) "text"
          (List.replicate 40 65)) =
      some (utf8Encode (if (List.replicate 40 65).length > 30 then
        (List.replicate 40 65).take 30 ++ dots3 else List.replicate 40 65))) ∧
    (∀ scontent : List Nat,
      updateRoomLastMessageStored ksW true kmW (List.replicate 16 3) "system" scontent =
        utf8Encode (generateLastMessagePreview "system" scontent)) := by
  have h := lastMessage_preview_roundtrip ksW kmW (List.replicate 16 3) (List.replicate 40 65)
    (by decide) (by decide) (by decide) (by decide) (by decide)
    (fun i => Nat.mod_lt _ (by decide))
  simpa using h

/-! ## C10: system-typed sends are encrypted but never decrypted on read -/

/-- C10.
With encryption enabled, `SendMessage` encrypts the stored content whatever
the requested type (the stored content is always `EncryptMessage` of the
request content), while every read path skips decryption exactly when the
stored type is `system`; hence a message sent through `SendMessage` with
type `system` is returned to clients — by `GetMessages`, by the stream, and
by the send echo — with its raw `aes256ctr:` envelope as content, not the
original plaintext. -/
theorem system_send_returns_raw_envelope :
    (∀ (ks : KS) (km : KMState) (iv : Str) (req : SendMessageReq) (mid now : Nat),
        (createEncryptedMessage ks true km iv req mid now).map (fun m => m.content) =
          encryptMessage ks true km iv (utf8Encode req.content)) ∧
    (∀ (ks : KS) (km : KMState) (iv : Str) (req : SendMessageReq) (mid now : Nat)
        (msg : Message),
        req.mtype = "system" →
        km.activeKey.length = 32 → req.content ≠ [] → (∀ u ∈ req.content, u < 0x110000) →
        iv.length = 16 → (∀ b ∈ iv, b < 256) → (∀ i, ks km.activeKey iv i < 256) →
        createEncryptedMessage ks true km iv req mid now = some msg →
        (getMessagesItem ks true km msg).content = msg.content ∧
        (streamEmitMessage ks true km msg).content = msg.content ∧
        (buildMessageResponse ks true km msg).content = msg.content ∧
        msg.content ≠ utf8Encode req.content) := by
  constructor
  · intro ks km iv req mid now
    unfold createEncryptedMessage
    cases h : encryptMessage ks true km iv (utf8Encode req.content) <;> simp [h]
  · intro ks km iv req mid now msg hsys hkey hc hcv hiv hivb hks hcreate
    have henc : encryptMessage ks true km iv (utf8Encode req.content) =
        some (aesTag ++ b64Encode (iv ++ xorKS (ks (getOrCreateRoomKey km) iv) 0
          (utf8Encode req.content))) := by
      unfold encryptMessage aesCTREncrypt
      rw [if_neg (by simp), if_neg (fun hne => hne hkey),
        if_neg (utf8Encode_ne_nil _ hc)]
    unfold createEncryptedMessage at hcreate
    rw [henc] at hcreate
    simp only [Option.some.injEq] at hcreate
    subst hcreate
    have hascii : ∀ c ∈ aesTag ++ b64Encode (iv ++ xorKS (ks (getOrCreateRoomKey km) iv) 0
        (utf8Encode req.content)), c < 128 := by
      intro c hcm
      rcases List.mem_append.mp hcm with hcm | hcm
      · have : ∀ x ∈ aesTag, x < 128 := by decide
        exact this c hcm
      · refine b64Encode_lt_128 _ ?_ c hcm
        intro b hb
        rcases List.mem_append.mp hb with hb | hb
        · exact hivb b hb
        · exact xorKS_lt_256 _ hks 0 _ (utf8Encode_lt_256 _ hcv) b hb
    have hvalid : utf8Valid (aesTag ++ b64Encode (iv ++ xorKS (ks (getOrCreateRoomKey km) iv) 0
        (utf8Encode req.content))) = true := ascii_utf8Valid _ hascii
    refine ⟨?_, ?_, ?_, ?_⟩
    · simp [getMessagesItem, hsys, systemType, hvalid]
    · simp [streamEmitMessage, hsys, systemType, hvalid]
    · simp [buildMessageResponse, hsys, systemType]
    · intro heq
      have hlen := congrArg List.length heq
      simp only [List.length_append, b64Encode_length, List.length_cons, xorKS_length,
        hiv] at hlen
      have htag : aesTag.length = 10 := by decide
      rw [htag] at hlen
      omega

/-- Witness for C10: a concrete system-typed send whose read-back is the
raw envelope. -/
theorem system_send_returns_raw_envelope_witness :
    ∃ msg, createEncryptedMessage ksW true kmW (List.replicate 16 3) ⟨1, [97], [72], "system"⟩
        1 0 = some msg ∧
      (getMessagesItem ksW true kmW msg).content = msg.content ∧
      msg.content ≠ utf8Encode [72] := by
  obtain ⟨msg, hmsg⟩ : ∃ msg, createEncryptedMessage ksW true kmW (List.replicate 16 3)
      ⟨1, [97], [72], "system"⟩ 1 0 = some msg := ⟨_, rfl⟩
  obtain ⟨h1, -, -, h4⟩ := system_send_returns_raw_envelope.2 ksW kmW (List.replicate 16 3)
    ⟨1, [97], [72], "system"⟩ 1 0 msg rfl (by decide) (by decide) (by decide) (by decide)
    (by decide) (fun i => Nat.mod_lt _ (by decide)) hmsg
  exact ⟨msg, hmsg, h1, h4⟩

/-! ## C1: key rotation versus stored messages -/

/-- The pre-rotation key-manager state for the C1 scenario: active DEK of
32 zero bytes at version 1. -/
def kmC1 : KMState :=
  { activeKey := List.replicate 32 0, version := 1, oldKeys := [], keepOldKeys := 5 }

/-- The freshly generated DEK installed by the rotation. -/
def k2C1 : Str := List.replicate 32 1

/-- C1 fails on the code (code bug).
A message stored under the room's version-1 DEK and then read through
`GetMessages` *after* `ForceRotateKey` does not decrypt to its original
plaintext: `MessageEncryption.DecryptMessage` always uses the current
active DEK (`GetOrCreateRoomKey`) — there is no version lookup and the
archived `oldKeys` are never consulted — so the stored envelope for `"A"`
(byte 65) comes back as byte 64 under the concrete keystream.  The final
conjunct records that rotation changed the decryption key. -/
theorem rotation_breaks_stored_message_decryption :
    ((createEncryptedMessage ksW true kmC1 (List.replicate 16 0) ⟨1, [97], [65], "text"⟩ 1 0).map
        (fun msg => (getMessagesItem ksW true (rotateKey kmC1 k2C1) msg).content)) = some [64] ∧
    utf8Encode [65] = [65] ∧ ([64] : Str) ≠ [65] ∧
    (rotateKey kmC1 k2C1).activeKey ≠ kmC1.activeKey := by
  refine ⟨by decide, by decide, by decide, by decide⟩
